import Mathlib

/-!
Shallow embedding of `src/tablespec/gx_constraint_extractor.py` (class
`GXConstraintExtractor`): the regex-to-sample generator
(`generate_value_from_regex`, `_generate_char_from_class`) and the
suite-constraint extractors (`extract_value_sets`, `extract_metadata_hints`,
`extract_regex_patterns`, `extract_strftime_formats`,
`get_constraints_for_column`, `_looks_like_column_name`).

Python strings are `List Char`; Python's `random` module is modelled by a
stream of natural numbers (`List Nat`, exhausted entries read as 0):
`random.randint(a, b)` consumes one stream element `h` and returns
`a + h % (b - a + 1)` (raising `ValueError` when `b < a`, as in CPython),
and `random.choice(seq)` consumes one element `h` and returns
`seq[h % len(seq)]`.  "Drawn uniformly" claims are read as: the result
always lies in the stated range, and every value of the range is attained
by some stream.  Python exceptions are modelled with an `Except` layer;
recursion is made structural with an explicit recursion-depth fuel (outer)
and a per-call loop-step fuel (inner), with fuel exhaustion a distinguished
error that the termination theorems prove unreachable at the stated bounds.
-/

namespace TableSpec

/-- Python exception kinds that the modelled code can raise. -/
inductive PyErr where
  | valueError
  | typeError
  | attributeError
  | indexError
  | keyError
deriving DecidableEq

/-- Errors of the embedding: a genuine Python exception, or exhaustion of the
model's fuel (proved unreachable at the bounds used). -/
inductive Err where
  | fuel
  | py (e : PyErr)
deriving DecidableEq

/-- The effect monad: state is the stream of random numbers. -/
def M (α : Type) : Type := List Nat → Except Err α × List Nat

/-- Monadic return for `M`. -/
def M.pure (a : α) : M α := fun s => (.ok a, s)

/-- Monadic bind for `M`. -/
def M.bind (m : M α) (f : α → M β) : M β := fun s =>
  match m s with
  | (.ok a, s') => f a s'
  | (.error e, s') => (.error e, s')

instance : Monad M where
  pure := M.pure
  bind := M.bind

/-- Run a computation on a concrete random stream. -/
def M.run (m : M α) (s : List Nat) : Except Err α × List Nat := m s

/-- Raise an error. -/
def M.fail (e : Err) : M α := fun s => (.error e, s)

/-- Consume one element of the random stream (0 when exhausted). -/
def nextNat : M Nat := fun s =>
  match s with
  | [] => (.ok 0, [])
  | h :: t => (.ok h, t)

/-- Model of `random.randint(a, b)`: uniform on `[a, b]` inclusive;
raises `ValueError` when `b < a` (empty range), as CPython does. -/
def randint (a b : Int) : M Int :=
  if b < a then M.fail (.py .valueError)
  else do
    let h ← nextNat
    pure (a + ((h % ((b - a).toNat + 1) : Nat) : Int))

/-- Model of `random.choice(seq)`: uniform over a nonempty sequence;
`IndexError` on an empty one. -/
def pyChoice (l : List α) : M α :=
  match l with
  | [] => M.fail (.py .indexError)
  | c :: cs => do
    let h ← nextNat
    pure ((c :: cs).getD (h % (c :: cs).length) c)

/-- Model of `try: ... except ValueError: ...` — state changes made before
the raise persist, other errors propagate. -/
def tryVE (m : M α) (handler : M α) : M α := fun s =>
  match m s with
  | (.error (.py .valueError), s') => handler s'
  | r => r

/-! ### Python string helpers -/

/-- Python `str.isspace` characters relevant to `strip()`/`split()`. -/
def isWsCh (c : Char) : Bool :=
  c = ' ' || c = '\t' || c = '\n' || c = '\r' || c = '\x0b' || c = '\x0c'

/-- Python `s.strip()` (no argument): remove leading/trailing whitespace. -/
def stripWsL (l : List Char) : List Char :=
  ((l.dropWhile isWsCh).reverse.dropWhile isWsCh).reverse

/-- Python `s.strip(chars)`: remove leading/trailing characters in `cs`. -/
def stripSet (cs : List Char) (l : List Char) : List Char :=
  ((l.dropWhile (cs.contains ·)).reverse.dropWhile (cs.contains ·)).reverse

/-- Python slice `s[a:b]` (with `0 ≤ a ≤ b`, clamped to the length). -/
def sliceL (l : List Char) (a b : Nat) : List Char := (l.drop a).take (b - a)

/-- Index of the first occurrence of `c` in `l` (helper for `str.find`). -/
def findIdxCh (c : Char) : List Char → Option Nat
  | [] => none
  | x :: xs => if x = c then some 0 else (findIdxCh c xs).map (· + 1)

/-- Python `s.find(c, start)`, with `none` for `-1`. -/
def findFrom (l : List Char) (c : Char) (start : Nat) : Option Nat :=
  (findIdxCh c (l.drop start)).map (· + start)

/-- Python `s.split(sep)` for a one-character separator: keeps empty parts. -/
def pySplitOn (sep : Char) : List Char → List (List Char)
  | [] => [[]]
  | c :: cs =>
    if c = sep then [] :: pySplitOn sep cs
    else
      match pySplitOn sep cs with
      | [] => [[c]]
      | p :: ps => (c :: p) :: ps

/-- Helper for `pySplitWs`: accumulates the current (reversed) token. -/
def wsTokensGo : List Char → List Char → List (List Char)
  | acc, [] => if acc = [] then [] else [acc.reverse]
  | acc, c :: cs =>
    if isWsCh c then
      if acc = [] then wsTokensGo [] cs else acc.reverse :: wsTokensGo [] cs
    else wsTokensGo (c :: acc) cs

/-- Python `s.split()` (no argument): split on whitespace runs, no empties. -/
def pySplitWs (l : List Char) : List (List Char) := wsTokensGo [] l

/-- Digit-run parser for Python `int()`: digits with single underscores
strictly between digits; `lastDigit` records whether the previous character
was a digit. -/
def parseDigitsU : List Char → Bool → Nat → Option Nat
  | [], lastDigit, acc => if lastDigit then some acc else none
  | c :: cs, lastDigit, acc =>
    if c.isDigit then parseDigitsU cs true (acc * 10 + (c.toNat - 48))
    else if c = '_' then
      if lastDigit then parseDigitsU cs false acc else none
    else none

/-- Model of Python `int(s)`: optional surrounding whitespace, optional
sign, then a digit run (underscore grouping allowed); `none` = `ValueError`. -/
def pyIntParse (l : List Char) : Option Int :=
  match stripWsL l with
  | '+' :: rest => (parseDigitsU rest false 0).map Int.ofNat
  | '-' :: rest => (parseDigitsU rest false 0).map (fun n => -(Int.ofNat n))
  | rest => (parseDigitsU rest false 0).map Int.ofNat

/-- `int(s)` as an `M` action raising `ValueError` on parse failure. -/
def pyInt (l : List Char) : M Int :=
  match pyIntParse l with
  | some n => pure n
  | none => M.fail (.py .valueError)

/-- Is `pre` a prefix of `l`? -/
def startsWithL : List Char → List Char → Bool
  | [], _ => true
  | _ :: _, [] => false
  | a :: as_, b :: bs => a = b && startsWithL as_ bs

/-- Python `needle in haystack` for strings: contiguous substring test. -/
def hasSubstr (needle : List Char) : List Char → Bool
  | [] => startsWithL needle []
  | c :: t => startsWithL needle (c :: t) || hasSubstr needle t

/-- Decimal digits of a natural number (most significant first). -/
def natDigitsGo : Nat → Nat → List Char → List Char
  | 0, _, acc => acc
  | _ + 1, n, acc =>
    if n < 10 then Char.ofNat (48 + n) :: acc
    else natDigitsGo (n / 10 + 1) (n / 10) (Char.ofNat (48 + n % 10) :: acc)

/-- Decimal representation of a natural number. -/
def natDigits (n : Nat) : List Char := natDigitsGo (n + 1) n []

/-- Model of Python `str(i)` for an integer. -/
def pyStrOfInt (n : Int) : List Char :=
  if n < 0 then '-' :: natDigits (-n).toNat else natDigits n.toNat

/-- `string.ascii_uppercase`. -/
def ascii_uppercase : List Char := "ABCDEFGHIJKLMNOPQRSTUVWXYZ".toList

/-- `string.ascii_lowercase`. -/
def ascii_lowercase : List Char := "abcdefghijklmnopqrstuvwxyz".toList

/-- `string.ascii_letters` (lowercase then uppercase, as in CPython). -/
def ascii_letters : List Char := ascii_lowercase ++ ascii_uppercase

/-- `string.digits`. -/
def string_digits : List Char := "0123456789".toList

/-- Embedding of `GXConstraintExtractor._generate_char_from_class`:
returns a one-character string sampled from the class body.  The source
checks the range markers by substring containment with early returns, then
has a combined-pool block, then a literal fallback. -/
def _generate_char_from_class (char_class : List Char) : M (List Char) :=
  if hasSubstr ('A' :: '-' :: 'Z' :: []) char_class then do
    let c ← pyChoice ascii_uppercase
    pure [c]
  else if hasSubstr ('a' :: '-' :: 'z' :: []) char_class then do
    let c ← pyChoice ascii_lowercase
    pure [c]
  else if hasSubstr ('0' :: '-' :: '9' :: []) char_class then do
    let n ← randint 0 9
    pure (pyStrOfInt n)
  else
    -- `# Handle combined classes` block of the source
    let chars : List Char :=
      (if hasSubstr ('A' :: '-' :: 'Z' :: []) char_class
          || hasSubstr ('a' :: '-' :: 'z' :: []) char_class then
        ascii_letters
      else []) ++
      (if hasSubstr ('0' :: '-' :: '9' :: []) char_class then string_digits
      else [])
    if chars ≠ [] then do
      let c ← pyChoice chars
      pure [c]
    else if char_class ≠ [] then do
      let c ← pyChoice char_class
      pure [c]
    else pure ['X']

/-- Python `for _ in range(n): result.append(act())` — run `act` `n` times,
collecting the appended strings in order. -/
def pyRepeat (n : Nat) (act : M α) : M (List α) :=
  match n with
  | 0 => pure []
  | n + 1 => do
    let x ← act
    let xs ← pyRepeat n act
    pure (x :: xs)

/-- The quantifier block shared verbatim by the character-class branch and
the `\d` branch of `generate_value_from_regex`: starting from `next_pos`
(one past the unit), resolve `{n}` / `{n,}` / `{n,m}` / `+` / `?`, returning
the repetition count and the new cursor.  `{…}` parsing runs inside
`try: … except ValueError:` (the `randint` on an inverted `{n,m}` range
raises `ValueError` too, leaving `repetition = 1` and `i = next_pos`). -/
def scanQuant (pattern : List Char) (next_pos : Nat) : M (Int × Nat) :=
  if next_pos < pattern.length then
    if pattern.getD next_pos ' ' = '{' then
      match findFrom pattern '}' next_pos with
      | some end_brace =>
        let quant_str := sliceL pattern (next_pos + 1) end_brace
        tryVE
          (if quant_str.contains ',' then
            let parts := pySplitOn ',' quant_str
            do
              let min_val ← pyInt (parts.getD 0 [])
              if parts.length > 1 ∧ stripWsL (parts.getD 1 []) ≠ [] then do
                let r ← randint min_val (← pyInt (parts.getD 1 []))
                pure (r, end_brace + 1)
              else do
                -- {n,} — generate between n and n+5
                let r ← randint min_val (min_val + 5)
                pure (r, end_brace + 1)
          else do
            let r ← pyInt quant_str
            pure (r, end_brace + 1))
          (pure (1, next_pos))
      | none => pure (1, next_pos)
    else if pattern.getD next_pos ' ' = '+' then do
      -- + quantifier: one or more (generate 3-10)
      let r ← randint 3 10
      pure (r, next_pos + 1)
    else if pattern.getD next_pos ' ' = '?' then do
      -- ? quantifier: zero or one
      let r ← pyChoice [(0 : Int), 1]
      pure (r, next_pos + 1)
    else pure (1, next_pos)
  else pure (1, next_pos)

/-- The quantifier check after a parenthesized group: the source only
recognizes `+` (range 1–3) and `?` there — no `{…}` branch. -/
def groupQuant (pattern : List Char) (next_pos : Nat) : M (Int × Nat) :=
  if next_pos < pattern.length then
    if pattern.getD next_pos ' ' = '+' then do
      let r ← randint 1 3
      pure (r, next_pos + 1)
    else if pattern.getD next_pos ' ' = '?' then do
      let r ← pyChoice [(0 : Int), 1]
      pure (r, next_pos + 1)
    else pure (1, next_pos)
  else pure (1, next_pos)

/-- One dispatch step of the `while i < len(pattern)` loop of
`generate_value_from_regex` at cursor `i` (`i < pattern.length`), with
`recurse` the recursive call used for group contents.  Returns the strings
appended to `result` during this step and the new cursor.  The source's
escaped-character block `continue`s only for `\.`; for any other character
after `\` it falls through to the `[`/`\d`/`(`/metacharacter/literal chain
(where only `\d` can match), which the else-if chain below reproduces. -/
def dispatch (recurse : List Char → M (List Char)) (pattern : List Char)
    (i : Nat) : M (List (List Char) × Nat) :=
  if i + 1 < pattern.length ∧ pattern.getD i ' ' = '\\' ∧
      pattern.getD (i + 1) ' ' = '.' then
    pure ([['.']], i + 2)
  else if pattern.getD i ' ' = '[' then
    match findFrom pattern ']' i with
    | none =>
      -- Malformed pattern, skip
      pure ([], i + 1)
    | some end_bracket => do
      let char_class := sliceL pattern (i + 1) end_bracket
      let (repetition, i') ← scanQuant pattern (end_bracket + 1)
      let pieces ← pyRepeat repetition.toNat (_generate_char_from_class char_class)
      pure (pieces, i')
  else if sliceL pattern i (i + 2) = ('\\' :: 'd' :: []) then do
    let (repetition, i') ← scanQuant pattern (i + 2)
    let pieces ← pyRepeat repetition.toNat (do
      let n ← randint 0 9
      pure (pyStrOfInt n))
    pure (pieces, i')
  else if pattern.getD i ' ' = '(' then
    match findFrom pattern ')' i with
    | none => pure ([], i + 1)
    | some end_paren => do
      let group_content := sliceL pattern (i + 1) end_paren
      let group_result ← recurse group_content
      let (repetition, i') ← groupQuant pattern (end_paren + 1)
      pure (List.replicate repetition.toNat group_result, i')
  else if pattern.getD i ' ' = '.' ∨ pattern.getD i ' ' = '*' ∨
      pattern.getD i ' ' = '|' then
    -- Skip unhandled regex metacharacters
    pure ([], i + 1)
  else
    -- Literal character
    pure ([[pattern.getD i ' ']], i + 1)

/-- The `while i < len(pattern)` loop, collecting appended strings from
cursor `i` on.  `sf` bounds the number of remaining dispatch steps; the
termination theorem shows `sf = pattern.length - i` suffices. -/
def loopGo (recurse : List Char → M (List Char)) (sf : Nat)
    (pattern : List Char) (i : Nat) : M (List (List Char)) :=
  if i < pattern.length then
    match sf with
    | 0 => M.fail .fuel
    | sf' + 1 => do
      let (pieces, i') ← dispatch recurse pattern i
      let rest ← loopGo recurse sf' pattern i'
      pure (pieces ++ rest)
  else pure []

/-- `generate_value_from_regex` with an explicit recursion-depth fuel `d`
(each group recursion runs on a strictly shorter string, so
`d = length + 1` suffices — see the termination theorem). -/
def genAux : Nat → List Char → M (List Char)
  | 0, _ => M.fail .fuel
  | d + 1, regex_pattern => do
    -- Remove anchors for processing
    let pattern := stripSet ('^' :: '$' :: []) regex_pattern
    let pieces ← loopGo (genAux d) pattern.length pattern 0
    pure pieces.flatten

/-- Embedding of `GXConstraintExtractor.generate_value_from_regex`. -/
def generate_value_from_regex (regex_pattern : List Char) : M (List Char) :=
  genAux (regex_pattern.length + 1) regex_pattern

/-! ### YAML value model for the suite extractors

`yaml.safe_load` output is modelled by `YVal`.  Dictionary keys read by the
code are strings; dictionaries *built* by the code are keyed by the
`column` value, so they are association lists keyed by `YVal`, with Python
`d[k] = v` replacing the value in place at the first matching key (keys of
a Python dict are unique and keep insertion order).  Python `==` is
modelled by structural equality (`YVal.beq`); the Python quirk
`True == 1` is not reproduced (no claim compares booleans to integers). -/

/-- A parsed YAML document value. -/
inductive YVal where
  | null
  | bool (b : Bool)
  | int (n : Int)
  | str (s : List Char)
  | list (xs : List YVal)
  | dict (kvs : List (List Char × YVal))

mutual

/-- Structural equality on YAML values (model of Python `==`). -/
def YVal.beq : YVal → YVal → Bool
  | .null, .null => true
  | .bool a, .bool b => a == b
  | .int a, .int b => a == b
  | .str a, .str b => a == b
  | .list xs, .list ys => YVal.beqList xs ys
  | .dict xs, .dict ys => YVal.beqDict xs ys
  | _, _ => false

/-- Elementwise equality of YAML lists. -/
def YVal.beqList : List YVal → List YVal → Bool
  | [], [] => true
  | x :: xs, y :: ys => YVal.beq x y && YVal.beqList xs ys
  | _, _ => false

/-- Entrywise equality of YAML dictionaries. -/
def YVal.beqDict : List (List Char × YVal) → List (List Char × YVal) → Bool
  | [], [] => true
  | (k1, v1) :: xs, (k2, v2) :: ys =>
    k1 == k2 && YVal.beq v1 v2 && YVal.beqDict xs ys
  | _, _ => false

end

/-- Python truthiness of a YAML value. -/
def truthy : YVal → Bool
  | .null => false
  | .bool b => b
  | .int n => !(n == 0)
  | .str s => !s.isEmpty
  | .list xs => !xs.isEmpty
  | .dict kvs => !kvs.isEmpty

/-- Lookup in a string-keyed YAML dictionary. -/
def dictGet (kvs : List (List Char × YVal)) (key : List Char) : Option YVal :=
  match kvs with
  | [] => none
  | (k, v) :: rest => if k == key then some v else dictGet rest key

/-- Python `obj.get(key, default)`: only dictionaries have `.get`; anything
else raises `AttributeError`. -/
def pyGet (obj : YVal) (key : List Char) (dflt : YVal) : Except PyErr YVal :=
  match obj with
  | .dict kvs => .ok ((dictGet kvs key).getD dflt)
  | _ => .error .attributeError

/-- Python `key in obj` for a string key: key test for dictionaries,
substring test for strings, element test for lists, `TypeError` for
non-container scalars. -/
def pyContains (obj : YVal) (key : List Char) : Except PyErr Bool :=
  match obj with
  | .dict kvs => .ok (dictGet kvs key).isSome
  | .str s => .ok (hasSubstr key s)
  | .list xs => .ok (xs.any (fun v => YVal.beq v (.str key)))
  | _ => .error .typeError

/-- Python `obj[key]` for a string key: dictionary lookup (`KeyError` when
absent); strings and lists take integer indices only, so a string key
raises `TypeError`, as do scalars. -/
def pySubscr (obj : YVal) (key : List Char) : Except PyErr YVal :=
  match obj with
  | .dict kvs =>
    match dictGet kvs key with
    | some v => .ok v
    | none => .error .keyError
  | _ => .error .typeError

/-- Python `for x in obj`: lists yield elements, strings their characters,
dictionaries their keys; other values raise `TypeError`. -/
def pyIter : YVal → Except PyErr (List YVal)
  | .list xs => .ok xs
  | .str s => .ok (s.map (fun c => .str [c]))
  | .dict kvs => .ok (kvs.map (fun kv => YVal.str kv.1))
  | _ => .error .typeError

/-- Python `str(v)` on YAML scalars (the extractors apply it only to
scalar members of `value_set` / `meta` lists; the container cases use a
fixed marker rather than a full `repr`). -/
def pyStr : YVal → List Char
  | .null => 'N' :: 'o' :: 'n' :: 'e' :: []
  | .bool true => 'T' :: 'r' :: 'u' :: 'e' :: []
  | .bool false => 'F' :: 'a' :: 'l' :: 's' :: 'e' :: []
  | .int n => pyStrOfInt n
  | .str s => s
  | .list _ => '[' :: ']' :: []
  | .dict _ => '\x7b' :: '\x7d' :: []

/-- Python `d[k] = v` on a `column`-keyed dictionary: replace in place at
the first matching key, else append (insertion order preserved). -/
def updIns (d : List (YVal × β)) (k : YVal) (v : β) : List (YVal × β) :=
  match d with
  | [] => [(k, v)]
  | (k', v') :: rest =>
    if YVal.beq k' k then (k', v) :: rest else (k', v') :: updIns rest k v

/-- Lookup in a `column`-keyed dictionary. -/
def lookupY (d : List (YVal × β)) (k : YVal) : Option β :=
  match d with
  | [] => none
  | (k', v) :: rest => if YVal.beq k' k then some v else lookupY rest k

/-- Python `d[k] = v` on a string-keyed hints dictionary. -/
def updInsS (d : List (List Char × β)) (k : List Char) (v : β) :
    List (List Char × β) :=
  match d with
  | [] => [(k, v)]
  | (k', v') :: rest =>
    if k' == k then (k', v) :: rest else (k', v') :: updInsS rest k v

/-- Python `base.update(upd)` for the per-column hints dictionary: each key
of `upd`, in order, overwrites (or appends to) `base`. -/
def hintsUpdate (base upd : List (List Char × β)) : List (List Char × β) :=
  upd.foldl (fun b kv => updInsS b kv.1 kv.2) base

/-- Multi-character `str.split(sep)` with explicit step fuel (each step
consumes at least one character, so `l.length` steps suffice). -/
def splitOnSubGo (sep : List Char) : Nat → List Char → List (List Char)
  | 0, l => [l]
  | fuel + 1, l =>
    match l with
    | [] => [[]]
    | c :: cs =>
      if startsWithL sep (c :: cs) then
        [] :: splitOnSubGo sep fuel (List.drop sep.length (c :: cs))
      else
        match splitOnSubGo sep fuel cs with
        | [] => [[c]]
        | p :: ps => (c :: p) :: ps

/-- Python `s.split(sep)` for a nonempty separator string. -/
def splitOnSub (l : List Char) (sep : List Char) : List (List Char) :=
  if sep = [] then [l] else splitOnSubGo sep l.length l

/-- Embedding of `GXConstraintExtractor._extract_examples_from_description`
for string descriptions. -/
def _extract_examples_from_description (description : List Char) :
    List (List Char) :=
  if hasSubstr ('E' :: 'x' :: ':' :: []) description
      || hasSubstr ('E' :: 'x' :: 'a' :: 'm' :: 'p' :: 'l' :: 'e' :: ':' :: [])
        description then
    let parts := splitOnSub description ('E' :: 'x' :: ':' :: [])
    let parts :=
      if parts.length < 2 then
        splitOnSub description
          ('E' :: 'x' :: 'a' :: 'm' :: 'p' :: 'l' :: 'e' :: ':' :: [])
      else parts
    if parts.length ≥ 2 then
      let example_text :=
        stripWsL ((splitOnSub (parts.getD 1 []) ('.' :: [])).getD 0 [])
      let values := (pySplitOn ',' example_text).map stripWsL
      values.filter (fun v => !v.isEmpty && v.length ≤ 50)
    else []
  else []

/-- `_extract_examples_from_description` on an arbitrary description value:
the code annotates `description: str`; a string is handled in full, a
non-string raises on its first string operation (`"Ex:" in description` is
a `TypeError` on scalars; a list/dict only reaches `description.split`,
an `AttributeError`, if it contains the marker, otherwise falls through to
the empty result). -/
def extractExamplesY : YVal → Except PyErr (List (List Char))
  | .str s => .ok (_extract_examples_from_description s)
  | .list xs =>
    if xs.any (fun v => YVal.beq v (.str ('E' :: 'x' :: ':' :: [])))
        || xs.any (fun v => YVal.beq v
          (.str ('E' :: 'x' :: 'a' :: 'm' :: 'p' :: 'l' :: 'e' :: ':' :: []))) then
      .error .attributeError
    else .ok []
  | .dict kvs =>
    if kvs.any (fun kv => kv.1 == ('E' :: 'x' :: ':' :: []))
        || kvs.any (fun kv =>
          kv.1 == ('E' :: 'x' :: 'a' :: 'm' :: 'p' :: 'l' :: 'e' :: ':' :: [])) then
      .error .attributeError
    else .ok []
  | _ => .error .typeError

/-- Body of the `for expectation in …` loop of `extract_value_sets`. -/
def evs_step (value_sets : List (YVal × List (List Char))) (expectation : YVal) :
    Except PyErr (List (YVal × List (List Char))) := do
  let ty ← pyGet expectation ('t' :: 'y' :: 'p' :: 'e' :: []) .null
  if YVal.beq ty (.str "expect_column_values_to_be_in_set".toList) then do
    let kwargs ← pyGet expectation "kwargs".toList (.dict [])
    let column ← pyGet kwargs "column".toList .null
    let value_set ← pyGet kwargs "value_set".toList (.list [])
    if truthy column && truthy value_set then do
      let vs ← pyIter value_set
      pure (updIns value_sets column (vs.map pyStr))
    else pure value_sets
  else pure value_sets

/-- Embedding of `GXConstraintExtractor.extract_value_sets`. -/
def extract_value_sets (expectations : YVal) :
    Except PyErr (List (YVal × List (List Char))) :=
  if truthy expectations = false then pure []
  else do
    let mem ← pyContains expectations "expectations".toList
    if mem = false then pure []
    else do
      let inner ← pySubscr expectations "expectations".toList
      let items ← pyIter inner
      items.foldlM evs_step []

/-- Body of the `for expectation in …` loop of `extract_regex_patterns`. -/
def erp_step (regex_patterns : List (YVal × YVal)) (expectation : YVal) :
    Except PyErr (List (YVal × YVal)) := do
  let ty ← pyGet expectation ('t' :: 'y' :: 'p' :: 'e' :: []) .null
  if YVal.beq ty (.str "expect_column_values_to_match_regex".toList) then do
    let kwargs ← pyGet expectation "kwargs".toList (.dict [])
    let column ← pyGet kwargs "column".toList .null
    let regex ← pyGet kwargs "regex".toList .null
    if truthy column && truthy regex then
      pure (updIns regex_patterns column regex)
    else pure regex_patterns
  else pure regex_patterns

/-- Embedding of `GXConstraintExtractor.extract_regex_patterns`. -/
def extract_regex_patterns (expectations : YVal) :
    Except PyErr (List (YVal × YVal)) :=
  if truthy expectations = false then pure []
  else do
    let mem ← pyContains expectations "expectations".toList
    if mem = false then pure []
    else do
      let inner ← pySubscr expectations "expectations".toList
      let items ← pyIter inner
      items.foldlM erp_step []

/-- Body of the `for expectation in …` loop of `extract_strftime_formats`. -/
def esf_step (strftime_formats : List (YVal × YVal)) (expectation : YVal) :
    Except PyErr (List (YVal × YVal)) := do
  let ty ← pyGet expectation ('t' :: 'y' :: 'p' :: 'e' :: []) .null
  if YVal.beq ty (.str "expect_column_values_to_match_strftime_format".toList) then do
    let kwargs ← pyGet expectation "kwargs".toList (.dict [])
    let column ← pyGet kwargs "column".toList .null
    let strftime_format ← pyGet kwargs "strftime_format".toList .null
    if truthy column && truthy strftime_format then
      pure (updIns strftime_formats column strftime_format)
    else pure strftime_formats
  else pure strftime_formats

/-- Embedding of `GXConstraintExtractor.extract_strftime_formats`. -/
def extract_strftime_formats (expectations : YVal) :
    Except PyErr (List (YVal × YVal)) :=
  if truthy expectations = false then pure []
  else do
    let mem ← pyContains expectations "expectations".toList
    if mem = false then pure []
    else do
      let inner ← pySubscr expectations "expectations".toList
      let items ← pyIter inner
      items.foldlM esf_step []

/-- Body of the `for expectation in …` loop of `extract_metadata_hints`. -/
def emh_step (metadata_hints : List (YVal × List (List Char × List (List Char))))
    (expectation : YVal) :
    Except PyErr (List (YVal × List (List Char × List (List Char)))) := do
  let kwargs ← pyGet expectation "kwargs".toList (.dict [])
  let column ← pyGet kwargs "column".toList .null
  let meta ← pyGet expectation "meta".toList (.dict [])
  if truthy column = false then pure metadata_hints
  else do
    let hasLob ← pyContains meta "lob".toList
    let hints1 ←
      if hasLob then do
        let lobv ← pySubscr meta "lob".toList
        match lobv with
        | .list xs => pure (updInsS ([] : List (List Char × List (List Char)))
            "lob".toList (xs.map pyStr))
        | _ => pure []
      else pure []
    let hasStates ← pyContains meta "states".toList
    let hints2 ←
      if hasStates then do
        let stv ← pySubscr meta "states".toList
        match stv with
        | .list xs => pure (updInsS hints1 "states".toList (xs.map pyStr))
        | _ => pure hints1
      else pure hints1
    let description ← pyGet meta "description".toList (.str [])
    let hints3 ←
      if truthy description then do
        let ex ← extractExamplesY description
        pure (updInsS hints2 "description_examples".toList ex)
      else pure hints2
    if hints3 ≠ [] then
      let ensured :=
        if (lookupY metadata_hints column).isSome then metadata_hints
        else updIns metadata_hints column []
      let cur := (lookupY ensured column).getD []
      pure (updIns ensured column (hintsUpdate cur hints3))
    else pure metadata_hints

/-- Embedding of `GXConstraintExtractor.extract_metadata_hints`. -/
def extract_metadata_hints (expectations : YVal) :
    Except PyErr (List (YVal × List (List Char × List (List Char)))) :=
  if truthy expectations = false then pure []
  else do
    let mem ← pyContains expectations "expectations".toList
    if mem = false then pure []
    else do
      let inner ← pySubscr expectations "expectations".toList
      let items ← pyIter inner
      items.foldlM emh_step []

/-- The fixed `suspicious_patterns` denylist of
`_looks_like_column_name`. -/
def suspicious_patterns : List (List Char) :=
  ["CLIENT MBRID", "MEMBER_ID", "FIRST NAME", "LAST NAME", "MemberLastName",
    "MemberFirstName", "CHASE LOAD DATE", "LOAD DATE", "DATE"].map
    String.toList

/-- Python `s.upper()` (ASCII; the denylist and the claims are ASCII). -/
def pyUpper (l : List Char) : List Char := l.map Char.toUpper

/-- Embedding of `GXConstraintExtractor._looks_like_column_name`. -/
def _looks_like_column_name (value : List Char) : Bool :=
  if value = [] ∨ stripWsL value = [] then true
  else if (suspicious_patterns.map pyUpper).contains (pyUpper value) then true
  else hasSubstr ('_' :: []) value && pyUpper value == value
    && decide ((pySplitWs value).length ≤ 4)

/-- Modelled from the spec's words only (for the refinement claim about
the placeholder heuristic): blank, or case-insensitively equal to a
denylist entry, or underscore + entirely uppercase + at most 4
whitespace-separated tokens. -/
def spec_placeholder (value : List Char) : Bool :=
  decide (value = [] ∨ stripWsL value = [])
  || suspicious_patterns.any (fun p => pyUpper value == pyUpper p)
  || (hasSubstr ('_' :: []) value && pyUpper value == value
    && decide ((pySplitWs value).length ≤ 4))

/-- Embedding of `GXConstraintExtractor.get_constraints_for_column`. -/
def get_constraints_for_column (expectations : YVal) (column_name : List Char) :
    Except PyErr (Option (List (List Char))) := do
  let value_sets ← extract_value_sets expectations
  match lookupY value_sets (.str column_name) with
  | some vals =>
    let filtered_values := vals.filter (fun v => !(_looks_like_column_name v))
    if filtered_values ≠ [] then pure (some filtered_values) else pure none
  | none => pure none

/-! ### Concrete suite fixtures used in the theorems -/

/-- An expectation for column `C` whose metadata carries `lob: [v]`. -/
def exp_lob (v : List Char) : YVal :=
  .dict [("kwargs".toList, .dict [("column".toList, .str ('C' :: []))]),
    ("meta".toList, .dict [("lob".toList, .list [.str v])])]

/-- An expectation for column `C` whose metadata carries
`states: ["NY", "NJ"]`. -/
def exp_states : YVal :=
  .dict [("kwargs".toList, .dict [("column".toList, .str ('C' :: []))]),
    ("meta".toList, .dict [("states".toList,
      .list [.str "NY".toList, .str "NJ".toList])])]

/-- Suite with two rules for the same column, both with a `lob` hint. -/
def suite_two_lob : YVal :=
  .dict [("expectations".toList,
    .list [exp_lob "MD".toList, exp_lob "NY".toList])]

/-- Suite with two rules for the same column, one `lob` and one `states`
hint. -/
def suite_lob_states : YVal :=
  .dict [("expectations".toList, .list [exp_lob "MD".toList, exp_states])]

/-- Suite with a value-set rule for column `COL`:
`value_set = ["MEMBER_ID", "X1"]`. -/
def suite_member_id : YVal :=
  .dict [("expectations".toList, .list [.dict [
    ("type".toList, .str "expect_column_values_to_be_in_set".toList),
    ("kwargs".toList, .dict [("column".toList, .str "COL".toList),
      ("value_set".toList,
        .list [.str "MEMBER_ID".toList, .str "X1".toList])])]])]

/-- Suite whose only value-set entry is the placeholder `"MEMBER_ID"`. -/
def suite_member_id_only : YVal :=
  .dict [("expectations".toList, .list [.dict [
    ("type".toList, .str "expect_column_values_to_be_in_set".toList),
    ("kwargs".toList, .dict [("column".toList, .str "COL".toList),
      ("value_set".toList, .list [.str "MEMBER_ID".toList])])]])]

/-- The pattern `^[0-9]{3,}$` of the spec's open-ended-quantifier test. -/
def p039 : List Char :=
  '^' :: '[' :: '0' :: '-' :: '9' :: ']' :: '{' :: '3' :: ',' :: '}' :: '$' :: []

/-- `p039` with the anchors stripped (the pattern the scanning loop sees). -/
def p09pat : List Char :=
  '[' :: '0' :: '-' :: '9' :: ']' :: '{' :: '3' :: ',' :: '}' :: []

/-! ### Specification predicates for the effect monad -/

/-- Totality-with-postcondition: `m` always succeeds and the result
satisfies `P`. -/
def Ok (m : M α) (P : α → Prop) : Prop :=
  ∀ s, ∃ a s', m.run s = (.ok a, s') ∧ P a

/-- Like `Ok` but the computation may raise (exactly) `ValueError`. -/
def OkVE (m : M α) (P : α → Prop) : Prop :=
  ∀ s, (∃ a s', m.run s = (.ok a, s') ∧ P a) ∨
    (∃ s', m.run s = (.error (.py .valueError), s'))

/-! ### Run lemmas for the effect monad -/

theorem run_pure (a : α) (s : List Nat) :
    (Pure.pure a : M α).run s = (.ok a, s) := rfl

theorem run_bind_ok {m : M α} {f : α → M β} {s s₁ : List Nat} {a : α}
    (h : m.run s = (.ok a, s₁)) : (m >>= f).run s = (f a).run s₁ := by
  show M.bind m f s = _
  unfold M.bind
  simp only [M.run] at h
  rw [h]
  rfl

theorem run_bind_err {m : M α} {f : α → M β} {s s₁ : List Nat} {e : Err}
    (h : m.run s = (.error e, s₁)) : (m >>= f).run s = (.error e, s₁) := by
  show M.bind m f s = _
  unfold M.bind
  simp only [M.run] at h
  rw [h]

theorem run_nextNat (s : List Nat) : nextNat.run s = (.ok (s.headD 0), s.tail) := by
  cases s <;> rfl

theorem ok_pure {P : α → Prop} (a : α) (h : P a) : Ok (pure a) P :=
  fun s => ⟨a, s, rfl, h⟩

theorem ok_bind {m : M α} {f : α → M β} {P : α → Prop} {Q : β → Prop}
    (hm : Ok m P) (hf : ∀ a, P a → Ok (f a) Q) : Ok (m >>= f) Q := by
  intro s
  obtain ⟨a, s₁, hrun, hP⟩ := hm s
  obtain ⟨b, s₂, hrun₂, hQ⟩ := hf a hP s₁
  exact ⟨b, s₂, by rw [run_bind_ok hrun]; exact hrun₂, hQ⟩

theorem ok_mono {m : M α} {P Q : α → Prop} (hm : Ok m P)
    (h : ∀ a, P a → Q a) : Ok m Q := by
  intro s
  obtain ⟨a, s', hrun, hP⟩ := hm s
  exact ⟨a, s', hrun, h a hP⟩

theorem ok_okVE {m : M α} {P : α → Prop} (hm : Ok m P) : OkVE m P :=
  fun s => .inl (hm s)

theorem okVE_bind {m : M α} {f : α → M β} {P : α → Prop} {Q : β → Prop}
    (hm : OkVE m P) (hf : ∀ a, P a → OkVE (f a) Q) : OkVE (m >>= f) Q := by
  intro s
  rcases hm s with ⟨a, s₁, hrun, hP⟩ | ⟨s₁, hrun⟩
  · rcases hf a hP s₁ with ⟨b, s₂, hrun₂, hQ⟩ | ⟨s₂, hrun₂⟩
    · exact .inl ⟨b, s₂, by rw [run_bind_ok hrun]; exact hrun₂, hQ⟩
    · exact .inr ⟨s₂, by rw [run_bind_ok hrun]; exact hrun₂⟩
  · refine .inr ⟨s₁, ?_⟩
    show M.bind m f s = _
    unfold M.bind
    simp only [M.run] at hrun
    rw [hrun]

theorem ok_nextNat : Ok nextNat (fun _ => True) := by
  intro s
  exact ⟨s.headD 0, s.tail, run_nextNat s, trivial⟩

theorem ok_randint {a b : Int} (hab : a ≤ b) :
    Ok (randint a b) (fun v => a ≤ v ∧ v ≤ b) := by
  intro s
  have hlt : s.headD 0 % ((b - a).toNat + 1) < (b - a).toNat + 1 :=
    Nat.mod_lt _ (Nat.succ_pos _)
  have htn : ((b - a).toNat : Int) = b - a := Int.toNat_of_nonneg (by omega)
  refine ⟨a + ((s.headD 0 % ((b - a).toNat + 1) : Nat) : Int), s.tail, ?_, ?_, ?_⟩
  · show randint a b s = _
    unfold randint
    rw [if_neg (not_lt.mpr hab)]
    show M.bind nextNat _ s = _
    unfold M.bind
    have := run_nextNat s
    simp only [M.run] at this
    rw [this]
    rfl
  · omega
  · omega

theorem okVE_randint (a b : Int) : OkVE (randint a b) (fun v => a ≤ v ∧ v ≤ b) := by
  intro s
  by_cases hab : b < a
  · exact .inr ⟨s, by show randint a b s = _; unfold randint; rw [if_pos hab]; rfl⟩
  · exact .inl (ok_randint (not_lt.mp hab) s)

theorem getD_mem {l : List α} {k : Nat} (h : k < l.length) (d : α) :
    l.getD k d ∈ l := by
  rw [List.getD_eq_getElem l d h]
  exact List.getElem_mem h

theorem ok_pyChoice {l : List α} (h : l ≠ []) :
    Ok (pyChoice l) (fun c => c ∈ l) := by
  intro s
  match l, h with
  | c :: cs, _ =>
    refine ⟨(c :: cs).getD (s.headD 0 % (c :: cs).length) c, s.tail, ?_, ?_⟩
    · show pyChoice (c :: cs) s = _
      unfold pyChoice
      show M.bind nextNat _ s = _
      unfold M.bind
      have := run_nextNat s
      simp only [M.run] at this
      rw [this]
      rfl
    · exact getD_mem (Nat.mod_lt _ (by simp)) c

theorem okVE_pyInt (l : List Char) : OkVE (pyInt l) (fun _ => True) := by
  intro s
  unfold pyInt
  cases h : pyIntParse l with
  | some n => exact .inl ⟨n, s, rfl, trivial⟩
  | none => exact .inr ⟨s, rfl⟩

theorem ok_tryVE {m handler : M α} {P : α → Prop}
    (hm : OkVE m P) (hh : Ok handler P) : Ok (tryVE m handler) P := by
  intro s
  rcases hm s with ⟨a, s₁, hrun, hP⟩ | ⟨s₁, hrun⟩
  · refine ⟨a, s₁, ?_, hP⟩
    show tryVE m handler s = _
    unfold tryVE
    simp only [M.run] at hrun
    rw [hrun]
  · obtain ⟨a, s₂, hrun₂, hP⟩ := hh s₁
    refine ⟨a, s₂, ?_, hP⟩
    show tryVE m handler s = _
    unfold tryVE
    simp only [M.run] at hrun hrun₂
    rw [hrun]
    exact hrun₂

theorem ok_pyRepeat {act : M α} {P : α → Prop} (hact : Ok act P) (n : Nat) :
    Ok (pyRepeat n act) (fun xs => xs.length = n ∧ ∀ x ∈ xs, P x) := by
  induction n with
  | zero => exact ok_pure [] ⟨rfl, by simp⟩
  | succ n ih =>
    show Ok (act >>= _) _
    refine ok_bind hact (fun x hx => ?_)
    refine ok_bind ih (fun xs ⟨hlen, hall⟩ => ?_)
    refine ok_pure (x :: xs) ⟨by simp [hlen], ?_⟩
    intro y hy
    rcases List.mem_cons.mp hy with h | h
    · exact h ▸ hx
    · exact hall y h

/-! ### String-helper lemmas -/

theorem findIdxCh_some {c : Char} {l : List Char} {k : Nat}
    (h : findIdxCh c l = some k) : k < l.length := by
  induction l generalizing k with
  | nil => simp [findIdxCh] at h
  | cons x xs ih =>
    unfold findIdxCh at h
    by_cases hx : x = c
    · rw [if_pos hx] at h
      simp at h
      simp
      omega
    · rw [if_neg hx] at h
      cases hk : findIdxCh c xs with
      | none => rw [hk] at h; simp at h
      | some k' =>
        rw [hk] at h
        simp at h
        have := ih hk
        simp
        omega

theorem findFrom_ge {l : List Char} {c : Char} {start k : Nat}
    (h : findFrom l c start = some k) : start ≤ k := by
  unfold findFrom at h
  cases hk : findIdxCh c (l.drop start) with
  | none => rw [hk] at h; simp at h
  | some k' => rw [hk] at h; simp at h; omega

theorem sliceL_length_le (l : List Char) (a b : Nat) :
    (sliceL l a b).length ≤ l.length - a := by
  unfold sliceL
  simp

theorem length_dropWhile_le (p : α → Bool) (l : List α) :
    (l.dropWhile p).length ≤ l.length := by
  induction l with
  | nil => simp [List.dropWhile]
  | cons x xs ih =>
    unfold List.dropWhile
    split
    · exact le_trans ih (by simp)
    · simp

theorem stripSet_length_le (cs l : List Char) :
    (stripSet cs l).length ≤ l.length := by
  unfold stripSet
  calc ((l.dropWhile (cs.contains ·)).reverse.dropWhile (cs.contains ·)).reverse.length
      = ((l.dropWhile (cs.contains ·)).reverse.dropWhile (cs.contains ·)).length := by
        rw [List.length_reverse]
    _ ≤ (l.dropWhile (cs.contains ·)).reverse.length := length_dropWhile_le _ _
    _ = (l.dropWhile (cs.contains ·)).length := by rw [List.length_reverse]
    _ ≤ l.length := length_dropWhile_le _ _

/-! ### No-failure results for the generator -/

theorem ok_generate_char (cc : List Char) :
    Ok (_generate_char_from_class cc) (fun _ => True) := by
  unfold _generate_char_from_class
  by_cases hA : hasSubstr ('A' :: '-' :: 'Z' :: []) cc = true
  · rw [if_pos hA]
    exact ok_bind (@ok_pyChoice Char ascii_uppercase (by decide))
      (fun c _ => ok_pure [c] trivial)
  · rw [if_neg hA]
    by_cases ha : hasSubstr ('a' :: '-' :: 'z' :: []) cc = true
    · rw [if_pos ha]
      exact ok_bind (@ok_pyChoice Char ascii_lowercase (by decide))
        (fun c _ => ok_pure [c] trivial)
    · rw [if_neg ha]
      by_cases h9 : hasSubstr ('0' :: '-' :: '9' :: []) cc = true
      · rw [if_pos h9]
        exact ok_bind (@ok_randint 0 9 (by decide)) (fun n _ => ok_pure _ trivial)
      · rw [if_neg h9]
        simp only [Bool.not_eq_true] at hA ha h9
        simp only [hA, ha, h9, Bool.or_self, Bool.false_or, if_neg,
          Bool.false_eq_true, List.append_nil, ne_eq, not_true_eq_false,
          not_false_eq_true, if_false]
        by_cases hcc : cc = []
        · simp only [hcc, not_true_eq_false, if_false, if_neg]
          exact ok_pure _ trivial
        · simp only [hcc, not_false_eq_true, if_true, if_pos]
          exact ok_bind (ok_pyChoice hcc) (fun c _ => ok_pure [c] trivial)

theorem ok_scanQuant (pattern : List Char) (next_pos : Nat) :
    Ok (scanQuant pattern next_pos) (fun ri => next_pos ≤ ri.2) := by
  unfold scanQuant
  split
  · split
    · split
      · next end_brace hfind =>
        have hge := findFrom_ge hfind
        refine ok_tryVE ?_ (ok_pure _ (by show next_pos ≤ next_pos; omega))
        split
        · refine okVE_bind (okVE_pyInt _) (fun min_val _ => ?_)
          split
          · refine okVE_bind (okVE_pyInt _) (fun max_val _ => ?_)
            refine okVE_bind (okVE_randint _ _) (fun r _ => ?_)
            exact ok_okVE (ok_pure _ (by show next_pos ≤ end_brace + 1; omega))
          · refine okVE_bind (okVE_randint _ _) (fun r _ => ?_)
            exact ok_okVE (ok_pure _ (by show next_pos ≤ end_brace + 1; omega))
        · refine okVE_bind (okVE_pyInt _) (fun r _ => ?_)
          exact ok_okVE (ok_pure _ (by show next_pos ≤ end_brace + 1; omega))
      · exact ok_pure _ (by show next_pos ≤ next_pos; omega)
    · split
      · exact ok_bind (@ok_randint 3 10 (by decide))
          fun r _ => ok_pure _ (by show next_pos ≤ next_pos + 1; omega)
      · split
        · exact ok_bind (@ok_pyChoice Int [0, 1] (by decide))
            fun r _ => ok_pure _ (by show next_pos ≤ next_pos + 1; omega)
        · exact ok_pure _ (by show next_pos ≤ next_pos; omega)
  · exact ok_pure _ (by show next_pos ≤ next_pos; omega)

theorem ok_groupQuant (pattern : List Char) (next_pos : Nat) :
    Ok (groupQuant pattern next_pos) (fun ri => next_pos ≤ ri.2) := by
  unfold groupQuant
  split
  · split
    · exact ok_bind (@ok_randint 1 3 (by decide))
        fun r _ => ok_pure _ (by show next_pos ≤ next_pos + 1; omega)
    · split
      · exact ok_bind (@ok_pyChoice Int [0, 1] (by decide))
          fun r _ => ok_pure _ (by show next_pos ≤ next_pos + 1; omega)
      · exact ok_pure _ (by show next_pos ≤ next_pos; omega)
  · exact ok_pure _ (by show next_pos ≤ next_pos; omega)

theorem ok_dispatch {recurse : List Char → M (List Char)} {pattern : List Char}
    {i : Nat} (hi : i < pattern.length)
    (hrec : ∀ content, content.length < pattern.length →
      Ok (recurse content) (fun _ => True)) :
    Ok (dispatch recurse pattern i) (fun pi => i < pi.2) := by
  unfold dispatch
  split
  · exact ok_pure _ (by omega)
  · split
    · split
      · exact ok_pure _ (by omega)
      · next end_bracket hfind =>
        have hge := findFrom_ge hfind
        refine ok_bind (ok_scanQuant pattern (end_bracket + 1)) (fun ri hri => ?_)
        refine ok_bind (ok_pyRepeat (ok_generate_char _) _) (fun xs _ => ?_)
        have h2 : end_bracket + 1 ≤ ri.2 := hri
        exact ok_pure _ (by show i < ri.2; omega)
    · split
      · refine ok_bind (ok_scanQuant pattern (i + 2)) (fun ri hri => ?_)
        have hact : Ok (do
            let n ← randint 0 9
            pure (pyStrOfInt n)) (fun _ => True) :=
          ok_bind (@ok_randint 0 9 (by decide))
            (fun n _ => ok_pure (pyStrOfInt n) trivial)
        refine ok_bind (ok_pyRepeat hact _) (fun xs _ => ?_)
        have h2 : i + 2 ≤ ri.2 := hri
        exact ok_pure _ (by show i < ri.2; omega)
      · split
        · split
          · exact ok_pure _ (by omega)
          · next end_paren hfind =>
            have hge := findFrom_ge hfind
            have hlen : (sliceL pattern (i + 1) end_paren).length < pattern.length := by
              have := sliceL_length_le pattern (i + 1) end_paren
              omega
            refine ok_bind (hrec _ hlen) (fun gr _ => ?_)
            refine ok_bind (ok_groupQuant pattern (end_paren + 1)) (fun ri hri => ?_)
            have h2 : end_paren + 1 ≤ ri.2 := hri
            exact ok_pure _ (by show i < ri.2; omega)
        · split
          · exact ok_pure _ (by omega)
          · exact ok_pure _ (by omega)

theorem ok_loopGo {recurse : List Char → M (List Char)} {pattern : List Char}
    (hrec : ∀ content, content.length < pattern.length →
      Ok (recurse content) (fun _ => True)) :
    ∀ sf i, pattern.length - i ≤ sf →
      Ok (loopGo recurse sf pattern i) (fun _ => True) := by
  intro sf
  induction sf with
  | zero =>
    intro i hle
    unfold loopGo
    rw [if_neg (by omega)]
    exact ok_pure _ trivial
  | succ sf ih =>
    intro i hle
    unfold loopGo
    split
    · next hi =>
      refine ok_bind (ok_dispatch hi hrec) (fun pi hpi => ?_)
      have h2 : i < pi.2 := hpi
      refine ok_bind (ih pi.2 (by omega)) (fun rest _ => ?_)
      exact ok_pure _ trivial
    · exact ok_pure _ trivial

theorem ok_genAux : ∀ d rp, rp.length < d → Ok (genAux d rp) (fun _ => True) := by
  intro d
  induction d with
  | zero => intro rp h; omega
  | succ d ih =>
    intro rp h
    unfold genAux
    have hstrip := stripSet_length_le ('^' :: '$' :: []) rp
    refine ok_bind (ok_loopGo (fun content hlen => ih content (by omega)) _ 0
      (by omega)) (fun pieces _ => ?_)
    exact ok_pure _ trivial

/-! ### Further helper lemmas for the claim theorems -/

theorem run_pyChoice01 (s : List Nat) :
    (pyChoice [(0 : Int), 1]).run s =
      (.ok ([(0 : Int), 1].getD (s.headD 0 % 2) 0), s.tail) := by
  cases s <;> rfl

theorem choice01_mem (n : Nat) :
    [(0 : Int), 1].getD (n % 2) 0 = 0 ∨ [(0 : Int), 1].getD (n % 2) 0 = 1 := by
  have h : n % 2 = 0 ∨ n % 2 = 1 := by omega
  rcases h with h | h <;> rw [h] <;> simp

theorem scanQuant_question {pattern : List Char} {np : Nat} (s : List Nat)
    (h1 : np < pattern.length) (h2 : pattern.getD np ' ' = '?') :
    (scanQuant pattern np).run s =
      (.ok ([(0 : Int), 1].getD (s.headD 0 % 2) 0, np + 1), s.tail) := by
  unfold scanQuant
  rw [if_pos h1, if_neg (by rw [h2]; decide), if_neg (by rw [h2]; decide),
    if_pos h2]
  rw [run_bind_ok (run_pyChoice01 s)]
  rfl

theorem groupQuant_question {pattern : List Char} {np : Nat} (s : List Nat)
    (h1 : np < pattern.length) (h2 : pattern.getD np ' ' = '?') :
    (groupQuant pattern np).run s =
      (.ok ([(0 : Int), 1].getD (s.headD 0 % 2) 0, np + 1), s.tail) := by
  unfold groupQuant
  rw [if_pos h1, if_neg (by rw [h2]; decide), if_pos h2]
  rw [run_bind_ok (run_pyChoice01 s)]
  rfl

theorem drop_getD_cons {l : List Char} {i : Nat} (h : i < l.length) :
    l.drop i = l.getD i ' ' :: l.drop (i + 1) := by
  induction l generalizing i with
  | nil => simp at h
  | cons x xs ih =>
    cases i with
    | zero => rfl
    | succ i =>
      simp only [List.drop_succ_cons]
      have hi : i < xs.length := by simp at h; omega
      rw [ih hi]
      rfl

theorem sliceL_two_short {l : List Char} {i : Nat} (hi : i < l.length)
    (h2 : ¬ i + 1 < l.length) : sliceL l i (i + 2) = [l.getD i ' '] := by
  unfold sliceL
  rw [drop_getD_cons hi]
  have : l.drop (i + 1) = [] := by
    apply List.drop_eq_nil_of_le
    omega
  rw [this]
  have ht : i + 2 - i = 2 := by omega
  rw [ht]
  rfl

theorem sliceL_two_long {l : List Char} {i : Nat} (hi : i < l.length)
    (h2 : i + 1 < l.length) :
    sliceL l i (i + 2) = [l.getD i ' ', l.getD (i + 1) ' '] := by
  unfold sliceL
  rw [drop_getD_cons hi, drop_getD_cons h2]
  have ht : i + 2 - i = 2 := by omega
  rw [ht]
  rfl

theorem sliceL_ne_bsd {pattern : List Char} {i : Nat} (hi : i < pattern.length)
    (hnd : i + 1 < pattern.length → pattern.getD (i + 1) ' ' ≠ 'd') :
    sliceL pattern i (i + 2) ≠ ('\\' :: 'd' :: []) := by
  intro hs
  by_cases h2 : i + 1 < pattern.length
  · rw [sliceL_two_long hi h2] at hs
    exact hnd h2 (by injection hs with _ h; injection h)
  · rw [sliceL_two_short hi h2] at hs
    injection hs with _ h
    exact List.cons_ne_nil _ _ h.symm

/-! ### Claim theorems -/

/-- C1: for every input string, `generate_value_from_regex` terminates:
every dispatch branch strictly advances the cursor, the group recursion
runs on a strictly shorter substring, and the loop performs at most
`len(pattern)` dispatch steps — so running the embedding with loop-step
fuel `len(pattern)` and recursion-depth fuel `len(pattern) + 1` never
exhausts the fuel. -/
theorem generate_value_from_regex_terminates (rp : List Char) (s : List Nat) :
    ((generate_value_from_regex rp).run s).1 ≠ Except.error Err.fuel := by
  obtain ⟨v, s', hrun, _⟩ := ok_genAux (rp.length + 1) rp (by omega) s
  show ((genAux (rp.length + 1) rp).run s).1 ≠ _
  rw [hrun]
  simp

/-- C2: for every input string and every random stream,
`generate_value_from_regex` returns a string and never raises: every
error branch is caught (`ValueError` inside the quantifier `try`) or
unreachable, so the run always produces an `ok` result. -/
theorem generate_value_from_regex_never_raises (rp : List Char) (s : List Nat) :
    ∃ v s', (generate_value_from_regex rp).run s = (.ok v, s') := by
  obtain ⟨v, s', hrun, _⟩ := ok_genAux (rp.length + 1) rp (by omega) s
  exact ⟨v, s', hrun⟩

/-- C3 counterexample: the claim says `^A?$` always yields `""` or `"A"`;
in fact the engine emits `?` literally after a bare literal, so the run
yields the two-character string `A?`, which is neither. -/
theorem optional_quantifier_after_literal_cex :
    ((generate_value_from_regex ('^' :: 'A' :: '?' :: '$' :: [])).run []).1 =
        Except.ok ('A' :: '?' :: []) ∧
      ('A' :: '?' :: []) ≠ ([] : List Char) ∧
      ('A' :: '?' :: []) ≠ ('A' :: []) :=
  ⟨rfl, by decide, by decide⟩

/-- C3 amended: `?` yields exactly 0 or 1 repetitions after a character
class, `\d` (via `scanQuant`) or a group (via `groupQuant`), but after a
bare literal it is emitted literally, so `^A?$` always yields `"A?"`. -/
theorem optional_quantifier_resolution :
    (∀ (pattern : List Char) (np : Nat) (s : List Nat), np < pattern.length →
        pattern.getD np ' ' = '?' →
        ∃ r srest, (scanQuant pattern np).run s = (.ok (r, np + 1), srest) ∧
          (r = 0 ∨ r = 1)) ∧
    (∀ (pattern : List Char) (np : Nat) (s : List Nat), np < pattern.length →
        pattern.getD np ' ' = '?' →
        ∃ r srest, (groupQuant pattern np).run s = (.ok (r, np + 1), srest) ∧
          (r = 0 ∨ r = 1)) ∧
    (∀ s, (generate_value_from_regex ('^' :: 'A' :: '?' :: '$' :: [])).run s =
      (.ok ('A' :: '?' :: []), s)) := by
  refine ⟨?_, ?_, fun s => rfl⟩
  · intro pattern np s h1 h2
    exact ⟨_, s.tail, scanQuant_question s h1 h2, choice01_mem (s.headD 0)⟩
  · intro pattern np s h1 h2
    exact ⟨_, s.tail, groupQuant_question s h1 h2, choice01_mem (s.headD 0)⟩

/-- C3 witness: the amended theorem applied to the one-character pattern
`?` at position 0, for both quantifier scanners. -/
theorem optional_quantifier_resolution_witness :
    (∃ r srest, (scanQuant ('?' :: []) 0).run [] = (.ok (r, 1), srest) ∧
      (r = 0 ∨ r = 1)) ∧
    (∃ r srest, (groupQuant ('?' :: []) 0).run [] = (.ok (r, 1), srest) ∧
      (r = 0 ∨ r = 1)) :=
  ⟨optional_quantifier_resolution.1 ('?' :: []) 0 [] (by decide) (by decide),
    optional_quantifier_resolution.2.1 ('?' :: []) 0 [] (by decide) (by decide)⟩

/-- C5 counterexample: the claim says `(AB){3}` repeats the group three
times with no brace characters in the output; in fact the group scanner
only recognizes `+` and `?` after `)`, so the run yields `AB{3}`. -/
theorem group_brace_quantifier_cex :
    ((generate_value_from_regex
        ('(' :: 'A' :: 'B' :: ')' :: '{' :: '3' :: '}' :: [])).run []).1 =
        Except.ok ('A' :: 'B' :: '{' :: '3' :: '}' :: []) ∧
      '{' ∈ ('A' :: 'B' :: '{' :: '3' :: '}' :: []) ∧
      ('A' :: 'B' :: '{' :: '3' :: '}' :: []) ≠
        ('A' :: 'B' :: 'A' :: 'B' :: 'A' :: 'B' :: []) :=
  ⟨rfl, by decide, by decide⟩

/-- C5 amended: after a parenthesized group only `+` and `?` are
recognized as quantifiers; a `{` after `)` is not consumed (repetition
stays 1 and the cursor does not move), so the brace text is then emitted
literally — `(AB){3}` always yields `AB{3}`. -/
theorem group_quantifier_only_plus_question :
    (∀ (pattern : List Char) (np : Nat) (s : List Nat), np < pattern.length →
        pattern.getD np ' ' = '{' →
        (groupQuant pattern np).run s = (.ok (1, np), s)) ∧
    (∀ s, (generate_value_from_regex
        ('(' :: 'A' :: 'B' :: ')' :: '{' :: '3' :: '}' :: [])).run s =
      (.ok ('A' :: 'B' :: '{' :: '3' :: '}' :: []), s)) := by
  refine ⟨?_, fun s => rfl⟩
  intro pattern np s h1 h2
  unfold groupQuant
  rw [if_pos h1, if_neg (by rw [h2]; decide), if_neg (by rw [h2]; decide)]
  rfl

/-- C5 witness: the amended theorem applied to the one-character pattern
`{` at position 0. -/
theorem group_quantifier_only_plus_question_witness :
    (groupQuant ('\x7b' :: []) 0).run [] = (.ok (1, 0), []) :=
  group_quantifier_only_plus_question.1 ('\x7b' :: []) 0 [] (by decide)
    (by decide)

/-- C10: a backslash not followed by `.` (and not forming `\d`) is emitted
as a literal output character with the cursor advancing one position, and
a lone trailing backslash is emitted literally; hence `\w` yields the
two-character output `\w` and `\` yields `\`. -/
theorem backslash_literal_emission :
    (∀ (recurse : List Char → M (List Char)) (pattern : List Char) (i : Nat)
        (s : List Nat), i < pattern.length → pattern.getD i ' ' = '\\' →
        (i + 1 < pattern.length → pattern.getD (i + 1) ' ' ≠ '.' ∧
          pattern.getD (i + 1) ' ' ≠ 'd') →
        (dispatch recurse pattern i).run s = (.ok ([('\\' :: [])], i + 1), s)) ∧
    (∀ s, (generate_value_from_regex ('\\' :: 'w' :: [])).run s =
        (.ok ('\\' :: 'w' :: []), s)) ∧
    (∀ s, (generate_value_from_regex ('\\' :: [])).run s =
      (.ok ('\\' :: []), s)) := by
  refine ⟨?_, fun s => rfl, fun s => rfl⟩
  intro recurse pattern i s hi hb hnd
  unfold dispatch
  rw [if_neg (fun hc => (hnd hc.1).1 hc.2.2),
    if_neg (by rw [hb]; decide),
    if_neg (sliceL_ne_bsd hi (fun h => (hnd h).2)),
    if_neg (by rw [hb]; decide),
    if_neg (by rw [hb]; decide), hb]
  rfl

/-- C10 witness: the dispatch theorem applied to the pattern `\w` at
position 0 (with an arbitrary recursion callback). -/
theorem backslash_literal_emission_witness :
    (dispatch (genAux 0) ('\\' :: 'w' :: []) 0).run [] =
      (.ok ([('\\' :: [])], 1), []) :=
  backslash_literal_emission.1 (genAux 0) ('\\' :: 'w' :: []) 0 []
    (by decide) (by decide) (fun _ => ⟨by decide, by decide⟩)

/-- C7 counterexample: the claim says the extractors return an empty
mapping and never raise when the `expectations` value is not a list; in
fact a suite `{"expectations": None}` makes each of the four extractors
iterate over `None` and raise `TypeError`. -/
theorem extractors_nonlist_expectations_cex :
    extract_value_sets (.dict [("expectations".toList, .null)]) =
        .error .typeError ∧
      extract_regex_patterns (.dict [("expectations".toList, .null)]) =
        .error .typeError ∧
      extract_strftime_formats (.dict [("expectations".toList, .null)]) =
        .error .typeError ∧
      extract_metadata_hints (.dict [("expectations".toList, .null)]) =
        .error .typeError :=
  ⟨rfl, rfl, rfl, rfl⟩

/-- C7 amended: a suite that is `None` (falsy) or a dictionary without an
`expectations` key makes all four extractors return an empty mapping
without raising; a non-list `expectations` value (such as `None`) instead
raises `TypeError` when iterated. -/
theorem extractors_tolerate_missing_suite (kvs : List (List Char × YVal))
    (h : dictGet kvs "expectations".toList = none) :
    extract_value_sets .null = .ok [] ∧
      extract_regex_patterns .null = .ok [] ∧
      extract_strftime_formats .null = .ok [] ∧
      extract_metadata_hints .null = .ok [] ∧
      extract_value_sets (.dict kvs) = .ok [] ∧
      extract_regex_patterns (.dict kvs) = .ok [] ∧
      extract_strftime_formats (.dict kvs) = .ok [] ∧
      extract_metadata_hints (.dict kvs) = .ok [] := by
  refine ⟨rfl, rfl, rfl, rfl, ?_, ?_, ?_, ?_⟩ <;>
  · by_cases hk : kvs = []
    · subst hk; rfl
    · simp only [extract_value_sets, extract_regex_patterns,
        extract_strftime_formats, extract_metadata_hints, truthy, pyContains, h]
      simp [List.isEmpty_iff, hk, Bind.bind, Except.bind]
      rfl

/-- C7 witness: the amended theorem at the empty dictionary suite. -/
theorem extractors_tolerate_missing_suite_witness :
    extract_value_sets .null = .ok [] ∧
      extract_regex_patterns .null = .ok [] ∧
      extract_strftime_formats .null = .ok [] ∧
      extract_metadata_hints .null = .ok [] ∧
      extract_value_sets (.dict []) = .ok [] ∧
      extract_regex_patterns (.dict []) = .ok [] ∧
      extract_strftime_formats (.dict []) = .ok [] ∧
      extract_metadata_hints (.dict []) = .ok [] :=
  extractors_tolerate_missing_suite [] rfl

/-- C8 counterexample: the claim says hint lists for the same hint kind
from different rules are combined; in fact `dict.update` replaces the
value, so two `lob` hints for the same column leave only the second
list. -/
theorem metadata_hints_same_kind_overwrite_cex :
    extract_metadata_hints suite_two_lob =
        .ok [(.str ('C' :: []), [("lob".toList, ["NY".toList])])] ∧
      (["NY".toList] : List (List Char)) ≠ ["MD".toList, "NY".toList] :=
  ⟨rfl, by decide⟩

/-- C8 amended: hints for the same column from different rules are merged
at the hint-kind level (`dict.update`): kinds contributed by different
rules all appear in one entry, but for the same kind the later rule's
list replaces the earlier one. -/
theorem metadata_hints_dict_update_merge :
    extract_metadata_hints suite_lob_states =
        .ok [(.str ('C' :: []), [("lob".toList, ["MD".toList]),
          ("states".toList, ["NY".toList, "NJ".toList])])] ∧
      extract_metadata_hints suite_two_lob =
        .ok [(.str ('C' :: []), [("lob".toList, ["NY".toList])])] :=
  ⟨rfl, rfl⟩

/-- Bridge: Python `value.upper() in [p.upper() for p in patterns]`
written with `List.contains` equals the spec-side `List.any` phrasing. -/
theorem contains_map_upper (v : List Char) :
    ((suspicious_patterns.map pyUpper).contains (pyUpper v)) =
      suspicious_patterns.any (fun p => pyUpper v == pyUpper p) := by
  rw [List.contains_eq_any_beq, List.any_map]
  rfl

/-- C9: `_looks_like_column_name` holds exactly when the value is blank,
or case-insensitively equals a denylist entry, or has an underscore, is
entirely uppercase and has at most 4 whitespace tokens
(`spec_placeholder`); and `get_constraints_for_column` filters
placeholders from the column's value set, returning `None` when the
column is absent or every entry is filtered — for
`value_set = ["MEMBER_ID", "X1"]` the result is exactly `["X1"]`. -/
theorem get_constraints_placeholder_filtering :
    (∀ v, _looks_like_column_name v = spec_placeholder v) ∧
      get_constraints_for_column suite_member_id "COL".toList =
        .ok (some ["X1".toList]) ∧
      get_constraints_for_column suite_member_id_only "COL".toList = .ok none ∧
      get_constraints_for_column suite_member_id "OTHER".toList = .ok none := by
  refine ⟨?_, rfl, rfl, rfl⟩
  intro v
  unfold _looks_like_column_name spec_placeholder
  by_cases h1 : (v = [] ∨ stripWsL v = [])
  · rw [if_pos h1]
    simp [h1]
  · rw [if_neg h1]
    rw [decide_eq_false h1]
    simp only [Bool.false_or]
    by_cases h2 : ((suspicious_patterns.map pyUpper).contains (pyUpper v)) = true
    · rw [if_pos h2]
      rw [contains_map_upper] at h2
      rw [h2]
      simp
    · rw [if_neg h2]
      rw [contains_map_upper] at h2
      simp only [Bool.not_eq_true] at h2
      rw [h2]
      simp

/-! ### Helper lemmas for the character-class and quantifier claims -/

theorem run_randint {a b : Int} (hab : ¬ b < a) (s : List Nat) :
    (randint a b).run s =
      (.ok (a + ((s.headD 0 % ((b - a).toNat + 1) : Nat) : Int)), s.tail) := by
  unfold randint
  rw [if_neg hab]
  show M.bind nextNat _ s = _
  unfold M.bind
  have h := run_nextNat s
  simp only [M.run] at h
  rw [h]
  rfl

theorem tryVE_run_ok {m handler : M α} {a : α} {s s' : List Nat}
    (h : m.run s = (.ok a, s')) : (tryVE m handler).run s = (.ok a, s') := by
  show tryVE m handler s = _
  unfold tryVE
  simp only [M.run] at h
  rw [h]

theorem genchar_upper (cc : List Char) (s : List Nat)
    (h : hasSubstr ('A' :: '-' :: 'Z' :: []) cc = true) :
    ∃ c srest, (_generate_char_from_class cc).run s = (.ok [c], srest) ∧
      c ∈ ascii_uppercase := by
  obtain ⟨c, s', hrun, hmem⟩ := @ok_pyChoice Char ascii_uppercase (by decide) s
  refine ⟨c, s', ?_, hmem⟩
  unfold _generate_char_from_class
  rw [if_pos h, run_bind_ok hrun]
  rfl

theorem genchar_lower (cc : List Char) (s : List Nat)
    (hA : hasSubstr ('A' :: '-' :: 'Z' :: []) cc = false)
    (h : hasSubstr ('a' :: '-' :: 'z' :: []) cc = true) :
    ∃ c srest, (_generate_char_from_class cc).run s = (.ok [c], srest) ∧
      c ∈ ascii_lowercase := by
  obtain ⟨c, s', hrun, hmem⟩ := @ok_pyChoice Char ascii_lowercase (by decide) s
  refine ⟨c, s', ?_, hmem⟩
  unfold _generate_char_from_class
  rw [if_neg (by rw [hA]; decide), if_pos h, run_bind_ok hrun]
  rfl

theorem natDigits_lt10 {k : Nat} (h : k < 10) :
    natDigits k = [Char.ofNat (48 + k)] := by
  unfold natDigits natDigitsGo
  rw [if_pos h]

theorem pyStrOfInt_digit {n : Int} (h0 : 0 ≤ n) (h9 : n ≤ 9) :
    ∃ c, pyStrOfInt n = [c] ∧ c ∈ string_digits := by
  have hk : n.toNat < 10 := by omega
  refine ⟨Char.ofNat (48 + n.toNat), ?_, ?_⟩
  · unfold pyStrOfInt
    rw [if_neg (not_lt.mpr h0)]
    exact natDigits_lt10 hk
  · set k := n.toNat with hk2
    interval_cases k <;> decide

theorem genchar_digit (cc : List Char) (s : List Nat)
    (hA : hasSubstr ('A' :: '-' :: 'Z' :: []) cc = false)
    (ha : hasSubstr ('a' :: '-' :: 'z' :: []) cc = false)
    (h : hasSubstr ('0' :: '-' :: '9' :: []) cc = true) :
    ∃ c srest, (_generate_char_from_class cc).run s = (.ok [c], srest) ∧
      c ∈ string_digits := by
  obtain ⟨v, s', hrun, hv⟩ := @ok_randint 0 9 (by decide) s
  have hv1 : 0 ≤ v ∧ v ≤ 9 := hv
  obtain ⟨c, hc, hcd⟩ := pyStrOfInt_digit hv1.1 hv1.2
  refine ⟨c, s', ?_, hcd⟩
  unfold _generate_char_from_class
  rw [if_neg (by rw [hA]; decide), if_neg (by rw [ha]; decide), if_pos h,
    run_bind_ok hrun]
  show (pure (pyStrOfInt v) : M (List Char)).run s' = _
  rw [hc]
  rfl

/-- The class sampler on `0-9` always yields a one-digit string. -/
theorem genchar09_spec :
    Ok (_generate_char_from_class ('0' :: '-' :: '9' :: []))
      (fun x => ∃ c, x = [c] ∧ c ∈ string_digits) := by
  intro s
  obtain ⟨c, srest, hrun, hc⟩ :=
    genchar_digit ('0' :: '-' :: '9' :: []) s (by decide) (by decide) (by decide)
  exact ⟨[c], srest, hrun, c, rfl, hc⟩

theorem flatten_singletons {xs : List (List Char)}
    (h : ∀ x ∈ xs, ∃ c, x = [c] ∧ c ∈ string_digits) :
    xs.flatten.length = xs.length ∧ ∀ c ∈ xs.flatten, c ∈ string_digits := by
  induction xs with
  | nil => simp
  | cons x xs ih =>
    obtain ⟨c, hx, hc⟩ := h x (by simp)
    have ihh := ih (fun y hy => h y (by simp [hy]))
    subst hx
    constructor
    · simp [ihh.1]
    · intro d hd
      simp only [List.flatten_cons, List.singleton_append, List.mem_cons] at hd
      rcases hd with hd | hd
      · exact hd ▸ hc
      · exact ihh.2 d hd

theorem scanQuant_plus {pattern : List Char} {np : Nat} (s : List Nat)
    (h1 : np < pattern.length) (h2 : pattern.getD np ' ' = '+') :
    (scanQuant pattern np).run s =
      (.ok ((3 : Int) + ((s.headD 0 % 8 : Nat) : Int), np + 1), s.tail) := by
  unfold scanQuant
  rw [if_pos h1, if_neg (by rw [h2]; decide), if_pos h2,
    run_bind_ok (run_randint (by decide) s)]
  rfl

theorem groupQuant_plus {pattern : List Char} {np : Nat} (s : List Nat)
    (h1 : np < pattern.length) (h2 : pattern.getD np ' ' = '+') :
    (groupQuant pattern np).run s =
      (.ok ((1 : Int) + ((s.headD 0 % 3 : Nat) : Int), np + 1), s.tail) := by
  unfold groupQuant
  rw [if_pos h1, if_pos h2, run_bind_ok (run_randint (by decide) s)]
  rfl

theorem scanQuant_brace_closed {pattern : List Char} {np eb : Nat}
    {mn mx : Int} (h1 : np < pattern.length)
    (h2 : pattern.getD np ' ' = '{')
    (hfind : findFrom pattern '}' np = some eb)
    (hcomma : (sliceL pattern (np + 1) eb).contains ',' = true)
    (hmn : pyIntParse ((pySplitOn ',' (sliceL pattern (np + 1) eb)).getD 0 [])
      = some mn)
    (hlen : 1 < (pySplitOn ',' (sliceL pattern (np + 1) eb)).length)
    (hstrip : stripWsL ((pySplitOn ',' (sliceL pattern (np + 1) eb)).getD 1 [])
      ≠ [])
    (hmx : pyIntParse ((pySplitOn ',' (sliceL pattern (np + 1) eb)).getD 1 [])
      = some mx)
    (hle : mn ≤ mx) (s : List Nat) :
    (scanQuant pattern np).run s =
      (.ok (mn + ((s.headD 0 % ((mx - mn).toNat + 1) : Nat) : Int), eb + 1),
        s.tail) := by
  unfold scanQuant
  rw [if_pos h1, if_pos h2]
  simp only [hfind]
  apply tryVE_run_ok
  rw [if_pos hcomma]
  simp only [pyInt, hmn]
  rw [run_bind_ok (run_pure mn s)]
  show (if 1 < (pySplitOn ',' (sliceL pattern (np + 1) eb)).length ∧
      stripWsL ((pySplitOn ',' (sliceL pattern (np + 1) eb)).getD 1 []) ≠ []
    then _ else _ : M (Int × Nat)).run s = _
  rw [if_pos ⟨hlen, hstrip⟩]
  simp only [pyInt, hmx]
  rw [run_bind_ok (run_pure mx s), run_bind_ok (run_randint (not_lt.mpr hle) s)]
  rfl

theorem scanQuant_brace_open {pattern : List Char} {np eb : Nat}
    {mn : Int} (h1 : np < pattern.length)
    (h2 : pattern.getD np ' ' = '{')
    (hfind : findFrom pattern '}' np = some eb)
    (hcomma : (sliceL pattern (np + 1) eb).contains ',' = true)
    (hmn : pyIntParse ((pySplitOn ',' (sliceL pattern (np + 1) eb)).getD 0 [])
      = some mn)
    (hstrip : stripWsL ((pySplitOn ',' (sliceL pattern (np + 1) eb)).getD 1 [])
      = []) (s : List Nat) :
    (scanQuant pattern np).run s =
      (.ok (mn + ((s.headD 0 % 6 : Nat) : Int), eb + 1), s.tail) := by
  unfold scanQuant
  rw [if_pos h1, if_pos h2]
  simp only [hfind]
  apply tryVE_run_ok
  rw [if_pos hcomma]
  simp only [pyInt, hmn]
  rw [run_bind_ok (run_pure mn s)]
  show (if 1 < (pySplitOn ',' (sliceL pattern (np + 1) eb)).length ∧
      stripWsL ((pySplitOn ',' (sliceL pattern (np + 1) eb)).getD 1 []) ≠ []
    then _ else _ : M (Int × Nat)).run s = _
  rw [if_neg (fun hc => hc.2 hstrip),
    run_bind_ok (run_randint (by omega) s)]
  have h5 : mn + 5 - mn = (5 : Int) := by omega
  rw [h5]
  rfl

/-! ### Symbolic run of the pattern `^[0-9]{3,}$` -/

theorem scanQuant_p039 (s : List Nat) :
    (scanQuant p09pat 5).run s =
      (.ok ((3 : Int) + ((s.headD 0 % 6 : Nat) : Int), 9), s.tail) := by
  cases s <;> rfl

theorem dispatch_p039 (s : List Nat) :
    ∃ pieces srest,
      (dispatch (genAux 11) p09pat 0).run s = (.ok (pieces, 9), srest) ∧
        pieces.length = 3 + s.headD 0 % 6 ∧
        ∀ x ∈ pieces, ∃ c, x = [c] ∧ c ∈ string_digits := by
  have hdeq : dispatch (genAux 11) p09pat 0 = (do
      let ri ← scanQuant p09pat 5
      let pieces ← pyRepeat ri.1.toNat
        (_generate_char_from_class ('0' :: '-' :: '9' :: []))
      pure (pieces, ri.2)) := rfl
  obtain ⟨pieces, s₂, hrun, hP⟩ :=
    ok_pyRepeat genchar09_spec
      (((3 : Int) + ((s.headD 0 % 6 : Nat) : Int)).toNat) s.tail
  have hP1 : pieces.length = ((3 : Int) + ((s.headD 0 % 6 : Nat) : Int)).toNat ∧
      ∀ x ∈ pieces, ∃ c, x = [c] ∧ c ∈ string_digits := hP
  refine ⟨pieces, s₂, ?_, by omega, hP1.2⟩
  rw [hdeq, run_bind_ok (scanQuant_p039 s)]
  show (pyRepeat (((3 : Int) + ((s.headD 0 % 6 : Nat) : Int)).toNat)
      (_generate_char_from_class ('0' :: '-' :: '9' :: []))
    >>= fun pieces => pure (pieces, 9)).run s.tail = _
  rw [run_bind_ok hrun]
  rfl

theorem p039_spec (s : List Nat) :
    ∃ out srest, (generate_value_from_regex p039).run s = (.ok out, srest) ∧
      out.length = 3 + s.headD 0 % 6 ∧ ∀ c ∈ out, c ∈ string_digits := by
  obtain ⟨pieces, s₂, hdisp, hlen, hall⟩ := dispatch_p039 s
  have hflat := flatten_singletons hall
  refine ⟨pieces.flatten, s₂, ?_, by omega, hflat.2⟩
  have e1 : (generate_value_from_regex p039).run s =
      ((loopGo (genAux 11) 9 p09pat 0) >>= fun ps =>
        (pure ps.flatten : M (List Char))).run s := rfl
  have e2 : (loopGo (genAux 11) 9 p09pat 0).run s = (.ok (pieces ++ []), s₂) := by
    have e2a : loopGo (genAux 11) 9 p09pat 0 =
        (dispatch (genAux 11) p09pat 0 >>= fun x =>
          loopGo (genAux 11) 8 p09pat x.2 >>= fun rest =>
            pure (x.1 ++ rest)) := rfl
    rw [e2a, run_bind_ok hdisp]
    show (loopGo (genAux 11) 8 p09pat 9 >>= fun rest =>
      (pure (pieces ++ rest) : M (List (List Char)))).run s₂ = _
    rw [run_bind_ok (rfl :
      (loopGo (genAux 11) 8 p09pat 9).run s₂ = (.ok [], s₂))]
    rfl
  rw [e1, run_bind_ok e2]
  show (pure (pieces ++ []).flatten : M (List Char)).run s₂ = _
  simp [run_pure]

/-! ### C4 and C6 claim theorems -/

/-- C4 counterexample: the claim says that for the class body `A-Za-z0-9`
every character of the combined letters-and-digits pool is a possible
output; in fact the `A-Z` early return fires first, so a lowercase letter
such as `a` can never be produced. -/
theorem char_class_combined_pool_cex :
    ¬ ∃ s, (((_generate_char_from_class
        ('A' :: '-' :: 'Z' :: 'a' :: '-' :: 'z' :: '0' :: '-' :: '9' :: [])).run
          s).1 = Except.ok ('a' :: [])) := by
  rintro ⟨s, hs⟩
  obtain ⟨c, srest, hrun, hmem⟩ := genchar_upper
    ('A' :: '-' :: 'Z' :: 'a' :: '-' :: 'z' :: '0' :: '-' :: '9' :: []) s
    (by decide)
  rw [hrun] at hs
  simp only [] at hs
  have hc : c = 'a' := by
    have := congrArg (fun e => e) hs
    injection hs with h
    injection h
  subst hc
  exact absurd hmem (by decide)

/-- C4 amended: the range-marker checks are early returns in priority
order, so a class body containing `A-Z` always samples an uppercase
letter (hence for `A-Za-z0-9` only uppercase letters are possible); a
body with `a-z` but not `A-Z` samples lowercase; a body with `0-9` and
neither letter marker samples a digit.  The combined-pool block of the
source is unreachable. -/
theorem char_class_marker_priority :
    (∀ (cc : List Char) (s : List Nat),
        hasSubstr ('A' :: '-' :: 'Z' :: []) cc = true →
        ∃ c srest, (_generate_char_from_class cc).run s = (.ok [c], srest) ∧
          c ∈ ascii_uppercase) ∧
    (∀ (cc : List Char) (s : List Nat),
        hasSubstr ('A' :: '-' :: 'Z' :: []) cc = false →
        hasSubstr ('a' :: '-' :: 'z' :: []) cc = true →
        ∃ c srest, (_generate_char_from_class cc).run s = (.ok [c], srest) ∧
          c ∈ ascii_lowercase) ∧
    (∀ (cc : List Char) (s : List Nat),
        hasSubstr ('A' :: '-' :: 'Z' :: []) cc = false →
        hasSubstr ('a' :: '-' :: 'z' :: []) cc = false →
        hasSubstr ('0' :: '-' :: '9' :: []) cc = true →
        ∃ c srest, (_generate_char_from_class cc).run s = (.ok [c], srest) ∧
          c ∈ string_digits) :=
  ⟨genchar_upper, genchar_lower, genchar_digit⟩

/-- C4 witness: the amended theorem applied to the class bodies
`A-Za-z0-9`, `a-z0-9` and `0-9`. -/
theorem char_class_marker_priority_witness :
    (∃ c srest, (_generate_char_from_class
        ('A' :: '-' :: 'Z' :: 'a' :: '-' :: 'z' :: '0' :: '-' :: '9' :: [])).run
          [] = (.ok [c], srest) ∧ c ∈ ascii_uppercase) ∧
    (∃ c srest, (_generate_char_from_class
        ('a' :: '-' :: 'z' :: '0' :: '-' :: '9' :: [])).run
          [] = (.ok [c], srest) ∧ c ∈ ascii_lowercase) ∧
    (∃ c srest, (_generate_char_from_class ('0' :: '-' :: '9' :: [])).run
          [] = (.ok [c], srest) ∧ c ∈ string_digits) :=
  ⟨char_class_marker_priority.1
      ('A' :: '-' :: 'Z' :: 'a' :: '-' :: 'z' :: '0' :: '-' :: '9' :: []) []
      (by decide),
    char_class_marker_priority.2.1
      ('a' :: '-' :: 'z' :: '0' :: '-' :: '9' :: []) [] (by decide) (by decide),
    char_class_marker_priority.2.2 ('0' :: '-' :: '9' :: []) [] (by decide)
      (by decide) (by decide)⟩

/-- C6: randomized repetition counts fall in exactly the specified
inclusive ranges, each value being attainable: `{n,m}` is uniform on
`[n, m]`; `{n,}` on `[n, n+5]` (so `^[0-9]{3,}$` always yields 3–8
digits, with every length in 3–8 attainable); `+` after a class or `\d`
on `[3, 10]`; `+` after a group on `[1, 3]`. -/
theorem quantifier_ranges :
    (∀ (pattern : List Char) (np eb : Nat) (mn mx : Int),
        np < pattern.length → pattern.getD np ' ' = '{' →
        findFrom pattern '}' np = some eb →
        (sliceL pattern (np + 1) eb).contains ',' = true →
        pyIntParse ((pySplitOn ',' (sliceL pattern (np + 1) eb)).getD 0 [])
          = some mn →
        1 < (pySplitOn ',' (sliceL pattern (np + 1) eb)).length →
        stripWsL ((pySplitOn ',' (sliceL pattern (np + 1) eb)).getD 1 [])
          ≠ [] →
        pyIntParse ((pySplitOn ',' (sliceL pattern (np + 1) eb)).getD 1 [])
          = some mx →
        mn ≤ mx →
        (∀ s, ∃ r srest, (scanQuant pattern np).run s =
            (.ok (r, eb + 1), srest) ∧ mn ≤ r ∧ r ≤ mx) ∧
        (∀ v, mn ≤ v → v ≤ mx → ∃ s srest,
            (scanQuant pattern np).run s = (.ok (v, eb + 1), srest))) ∧
    (∀ (pattern : List Char) (np eb : Nat) (mn : Int),
        np < pattern.length → pattern.getD np ' ' = '{' →
        findFrom pattern '}' np = some eb →
        (sliceL pattern (np + 1) eb).contains ',' = true →
        pyIntParse ((pySplitOn ',' (sliceL pattern (np + 1) eb)).getD 0 [])
          = some mn →
        stripWsL ((pySplitOn ',' (sliceL pattern (np + 1) eb)).getD 1 [])
          = [] →
        (∀ s, ∃ r srest, (scanQuant pattern np).run s =
            (.ok (r, eb + 1), srest) ∧ mn ≤ r ∧ r ≤ mn + 5) ∧
        (∀ v, mn ≤ v → v ≤ mn + 5 → ∃ s srest,
            (scanQuant pattern np).run s = (.ok (v, eb + 1), srest))) ∧
    (∀ (pattern : List Char) (np : Nat),
        np < pattern.length → pattern.getD np ' ' = '+' →
        (∀ s, ∃ r srest, (scanQuant pattern np).run s =
            (.ok (r, np + 1), srest) ∧ 3 ≤ r ∧ r ≤ 10) ∧
        (∀ v : Int, 3 ≤ v → v ≤ 10 → ∃ s srest,
            (scanQuant pattern np).run s = (.ok (v, np + 1), srest))) ∧
    (∀ (pattern : List Char) (np : Nat),
        np < pattern.length → pattern.getD np ' ' = '+' →
        (∀ s, ∃ r srest, (groupQuant pattern np).run s =
            (.ok (r, np + 1), srest) ∧ 1 ≤ r ∧ r ≤ 3) ∧
        (∀ v : Int, 1 ≤ v → v ≤ 3 → ∃ s srest,
            (groupQuant pattern np).run s = (.ok (v, np + 1), srest))) ∧
    (∀ s, ∃ out srest, (generate_value_from_regex p039).run s =
        (.ok out, srest) ∧ 3 ≤ out.length ∧ out.length ≤ 8 ∧
        ∀ c ∈ out, c ∈ string_digits) ∧
    (∀ L, 3 ≤ L → L ≤ 8 → ∃ s out srest,
        (generate_value_from_regex p039).run s = (.ok out, srest) ∧
          out.length = L) := by
  refine ⟨?_, ?_, ?_, ?_, ?_, ?_⟩
  · intro pattern np eb mn mx h1 h2 hfind hcomma hmn hlen hstrip hmx hle
    constructor
    · intro s
      refine ⟨_, s.tail,
        scanQuant_brace_closed h1 h2 hfind hcomma hmn hlen hstrip hmx hle s,
        ?_, ?_⟩
      · have : 0 ≤ ((s.headD 0 % ((mx - mn).toNat + 1) : Nat) : Int) := by omega
        omega
      · have hm : s.headD 0 % ((mx - mn).toNat + 1) < (mx - mn).toNat + 1 :=
          Nat.mod_lt _ (Nat.succ_pos _)
        omega
    · intro v hv1 hv2
      refine ⟨[(v - mn).toNat], [], ?_⟩
      have := scanQuant_brace_closed h1 h2 hfind hcomma hmn hlen hstrip hmx hle
        [(v - mn).toNat]
      rw [this]
      have hmod : (v - mn).toNat % ((mx - mn).toNat + 1) = (v - mn).toNat :=
        Nat.mod_eq_of_lt (by omega)
      have hval : mn + ((((v - mn).toNat : Nat) % ((mx - mn).toNat + 1) : Nat)
          : Int) = v := by
        rw [hmod]; omega
      show (Except.ok (mn + ((([(v - mn).toNat].headD 0 % ((mx - mn).toNat + 1)
        : Nat) : Int)), eb + 1), ([(v - mn).toNat] : List Nat).tail) = _
      rw [show ([(v - mn).toNat] : List Nat).headD 0 = (v - mn).toNat from rfl,
        hval]
      rfl
  · intro pattern np eb mn h1 h2 hfind hcomma hmn hstrip
    constructor
    · intro s
      refine ⟨_, s.tail,
        scanQuant_brace_open h1 h2 hfind hcomma hmn hstrip s, ?_, ?_⟩
      · have : 0 ≤ ((s.headD 0 % 6 : Nat) : Int) := by omega
        omega
      · have hm : s.headD 0 % 6 < 6 := Nat.mod_lt _ (by omega)
        omega
    · intro v hv1 hv2
      refine ⟨[(v - mn).toNat], [], ?_⟩
      rw [scanQuant_brace_open h1 h2 hfind hcomma hmn hstrip [(v - mn).toNat]]
      have hmod : (v - mn).toNat % 6 = (v - mn).toNat :=
        Nat.mod_eq_of_lt (by omega)
      have hval : mn + ((((v - mn).toNat : Nat) % 6 : Nat) : Int) = v := by
        rw [hmod]; omega
      show (Except.ok (mn + ((([(v - mn).toNat].headD 0 % 6 : Nat) : Int)),
        eb + 1), ([(v - mn).toNat] : List Nat).tail) = _
      rw [show ([(v - mn).toNat] : List Nat).headD 0 = (v - mn).toNat from rfl,
        hval]
      rfl
  · intro pattern np h1 h2
    constructor
    · intro s
      refine ⟨_, s.tail, scanQuant_plus s h1 h2, ?_, ?_⟩
      · have : 0 ≤ ((s.headD 0 % 8 : Nat) : Int) := by omega
        omega
      · have hm : s.headD 0 % 8 < 8 := Nat.mod_lt _ (by omega)
        omega
    · intro v hv1 hv2
      refine ⟨[(v - 3).toNat], [], ?_⟩
      rw [scanQuant_plus [(v - 3).toNat] h1 h2]
      have hmod : (v - 3).toNat % 8 = (v - 3).toNat :=
        Nat.mod_eq_of_lt (by omega)
      have hval : (3 : Int) + ((((v - 3).toNat : Nat) % 8 : Nat) : Int) = v := by
        rw [hmod]; omega
      show (Except.ok ((3 : Int) + ((([(v - 3).toNat].headD 0 % 8 : Nat)
        : Int)), np + 1), ([(v - 3).toNat] : List Nat).tail) = _
      rw [show ([(v - 3).toNat] : List Nat).headD 0 = (v - 3).toNat from rfl,
        hval]
      rfl
  · intro pattern np h1 h2
    constructor
    · intro s
      refine ⟨_, s.tail, groupQuant_plus s h1 h2, ?_, ?_⟩
      · have : 0 ≤ ((s.headD 0 % 3 : Nat) : Int) := by omega
        omega
      · have hm : s.headD 0 % 3 < 3 := Nat.mod_lt _ (by omega)
        omega
    · intro v hv1 hv2
      refine ⟨[(v - 1).toNat], [], ?_⟩
      rw [groupQuant_plus [(v - 1).toNat] h1 h2]
      have hmod : (v - 1).toNat % 3 = (v - 1).toNat :=
        Nat.mod_eq_of_lt (by omega)
      have hval : (1 : Int) + ((((v - 1).toNat : Nat) % 3 : Nat) : Int) = v := by
        rw [hmod]; omega
      show (Except.ok ((1 : Int) + ((([(v - 1).toNat].headD 0 % 3 : Nat)
        : Int)), np + 1), ([(v - 1).toNat] : List Nat).tail) = _
      rw [show ([(v - 1).toNat] : List Nat).headD 0 = (v - 1).toNat from rfl,
        hval]
      rfl
  · intro s
    obtain ⟨out, srest, hrun, hlen, hdig⟩ := p039_spec s
    have hm : s.headD 0 % 6 < 6 := Nat.mod_lt _ (by omega)
    exact ⟨out, srest, hrun, by omega, by omega, hdig⟩
  · intro L hL1 hL2
    obtain ⟨out, srest, hrun, hlen, _⟩ := p039_spec [L - 3]
    refine ⟨[L - 3], out, srest, hrun, ?_⟩
    have hh : ([L - 3] : List Nat).headD 0 = L - 3 := rfl
    rw [hh] at hlen
    have hmod : (L - 3) % 6 = L - 3 := Nat.mod_eq_of_lt (by omega)
    omega

/-- C6 witness: the theorem's conjuncts applied to the concrete quantifier
fragments `{2,5}`, `{3,}` and `+`, and the length conjunct at length 5. -/
theorem quantifier_ranges_witness :
    (∃ r srest, (scanQuant ('\x7b' :: '2' :: ',' :: '5' :: '\x7d' :: []) 0).run
        [] = (.ok (r, 5), srest) ∧ (2 : Int) ≤ r ∧ r ≤ 5) ∧
    (∃ r srest, (scanQuant ('\x7b' :: '3' :: ',' :: '\x7d' :: []) 0).run
        [] = (.ok (r, 4), srest) ∧ (3 : Int) ≤ r ∧ r ≤ 3 + 5) ∧
    (∃ r srest, (scanQuant ('+' :: []) 0).run [] = (.ok (r, 1), srest) ∧
      (3 : Int) ≤ r ∧ r ≤ 10) ∧
    (∃ r srest, (groupQuant ('+' :: []) 0).run [] = (.ok (r, 1), srest) ∧
      (1 : Int) ≤ r ∧ r ≤ 3) ∧
    (∃ s out srest, (generate_value_from_regex p039).run s = (.ok out, srest) ∧
      out.length = 5) :=
  ⟨(quantifier_ranges.1 ('\x7b' :: '2' :: ',' :: '5' :: '\x7d' :: []) 0 4 2 5
      (by decide) (by decide) (by decide) (by decide) (by decide) (by decide)
      (by decide) (by decide) (by decide)).1 [],
    (quantifier_ranges.2.1 ('\x7b' :: '3' :: ',' :: '\x7d' :: []) 0 3 3
      (by decide) (by decide) (by decide) (by decide) (by decide)
      (by decide)).1 [],
    (quantifier_ranges.2.2.1 ('+' :: []) 0 (by decide) (by decide)).1 [],
    (quantifier_ranges.2.2.2.1 ('+' :: []) 0 (by decide) (by decide)).1 [],
    quantifier_ranges.2.2.2.2.2 5 (by decide) (by decide)⟩

end TableSpec
